import Mathlib

/-!
# Verification of the key-value server chapters

A shallow embedding of the key-value server lineage of the repository:

* `Simple` — the single-threaded server of chapter 20 and the thread-pooled
  server of chapter 21 (their `execute_command` / `handle_client` functions
  are textually identical up to the lock plumbing, so one embedding serves
  both).  Strings are modelled as `List Char`; the store
  (`HashMap<String, String>`) is modelled as an association list whose
  `insert` replaces any previous binding.
* `Mini` — the extended (Redis-style, async) server of chapter 25:
  a store of `String`/`List` typed values, whitespace tokenization,
  `LPUSH`/`LRANGE`, and the typed reply format.
* `Pool` — the `ThreadPool` of chapter 21.

Only the iteration order of `HashMap::keys` is not preserved by the
association-list model; no theorem below depends on key order.
Character-level operations (`to_uppercase`, `eq_ignore_ascii_case`,
whitespace) are modelled on the ASCII range, which covers the protocol
verbs and every input considered here.
-/

namespace Proto

/-- Abbreviation turning a Lean string literal into the `List Char` model. -/
def S (s : String) : List Char := s.data

/-- Whitespace as used by Rust `char::is_whitespace` on the ASCII range. -/
def isWs (c : Char) : Bool := c.isWhitespace

/-- Accumulator worker for `splitWhitespace`: `acc` is the current token,
reversed.  Mirrors Rust `str::split_whitespace` (no empty tokens). -/
def swAux : List Char → List Char → List (List Char)
  | acc, [] => if acc = [] then [] else [acc.reverse]
  | acc, c :: cs =>
    if isWs c then
      (if acc = [] then swAux [] cs else acc.reverse :: swAux [] cs)
    else swAux (c :: acc) cs

/-- Rust `str::split_whitespace().collect()`. -/
def splitWhitespace (s : List Char) : List (List Char) := swAux [] s

/-- Split `s` at the first occurrence of `sep`: `some (before, after)`,
or `none` when `sep` does not occur. -/
def breakAtSep (sep : Char) : List Char → Option (List Char × List Char)
  | [] => none
  | c :: cs =>
    if c = sep then some ([], cs)
    else
      match breakAtSep sep cs with
      | none => none
      | some (pre, post) => some (c :: pre, post)

/-- Rust `str::splitn(n, sep).collect()`: at most `n` parts, the last part
being the unsplit remainder.  `n = 0` never occurs in the sources. -/
def splitn (sep : Char) : Nat → List Char → List (List Char)
  | 0, _ => []
  | 1, s => [s]
  | n + 2, s =>
    match breakAtSep sep s with
    | none => [s]
    | some (pre, post) => pre :: splitn sep (n + 1) post

/-- Rust `str::trim` (ASCII whitespace). -/
def trim (s : List Char) : List Char :=
  ((s.dropWhile isWs).reverse.dropWhile isWs).reverse

/-- Rust `[String]::join(" ")`. -/
def joinSpace : List (List Char) → List Char
  | [] => []
  | [v] => v
  | v :: w :: ws => v ++ ' ' :: joinSpace (w :: ws)

/-- Rust `[String]::join("\n")`. -/
def joinNl : List (List Char) → List Char
  | [] => []
  | [v] => v
  | v :: w :: ws => v ++ '\n' :: joinNl (w :: ws)

/-- Rust `str::eq_ignore_ascii_case`. -/
def eqIgnoreAsciiCase (a b : List Char) : Bool :=
  a.map Char.toLower = b.map Char.toLower

/-- Decimal rendering of a natural, as in Rust `format!("{}", n)`. -/
def natChars (n : Nat) : List Char := Nat.toDigits 10 n

/-- Rust `str::parse::<i64>()`: optional sign, at least one digit, value
within the `i64` range; `none` models `Err`. -/
def parseI64 (s : List Char) : Option Int :=
  let core : Bool → List Char → Option Int := fun neg ds =>
    if ds = [] then none
    else if ds.all Char.isDigit then
      let n : Nat := ds.foldl (fun a c => a * 10 + (c.toNat - 48)) 0
      let v : Int := if neg then -(n : Int) else (n : Int)
      if -(2 ^ 63) ≤ v ∧ v ≤ 2 ^ 63 - 1 then some v else none
    else none
  match s with
  | '-' :: rest => core true rest
  | '+' :: rest => core false rest
  | _ => core false s

/-- Rust `i as usize` for `i : i64` (two's-complement wrap into `0..2^64`). -/
def intToUsize (i : Int) : Nat := (i % (2 ^ 64)).toNat

/-- Rust `&v[a..=b]`: `none` models the index panic when the range is not
in bounds. -/
def sliceIncl (l : List α) (a b : Nat) : Option (List α) :=
  if a ≤ b + 1 ∧ b < l.length then some ((l.drop a).take (b + 1 - a)) else none

/-- A protocol token: nonempty and free of whitespace, exactly what
whitespace tokenization can produce. -/
def isToken (t : List Char) : Bool :=
  !t.isEmpty && t.all (fun c => !(isWs c))

/-- Association-list lookup (model of `HashMap::get`). -/
def lookupKV (k : List Char) : List (List Char × α) → Option α
  | [] => none
  | (k', v) :: rest => if k' = k then some v else lookupKV k rest

/-- Model of `HashMap::remove`'s effect on the mapping. -/
def eraseKey (k : List Char) (s : List (List Char × α)) : List (List Char × α) :=
  s.filter (fun kv => kv.1 ≠ k)

/-- Model of `HashMap::insert`: replaces any previous binding of `k`.
(The resulting key order is irrelevant: `HashMap` key order is unspecified.) -/
def insertKV (k : List Char) (v : α) (s : List (List Char × α)) :
    List (List Char × α) :=
  (k, v) :: eraseKey k s

end Proto

namespace Simple

open Proto

/-- The chapter-20/21 store: `HashMap<String, String>`. -/
abbrev Store := List (List Char × List Char)

/-- `execute_command` of chapters 20 and 21, split at `parts`: the body of
the Rust `match parts.as_slice()` over the result of `line.splitn(3, ' ')`.
Returns the response and the updated store. -/
def exec_parts (parts : List (List Char)) (store : Store) : List Char × Store :=
  match parts with
  | [c, k, v] =>
    if c = S "SET" ∨ c = S "set" then (S "OK\n", insertKV k v store)
    else (S "ERROR unknown command\n", store)
  | [c, k] =>
    if c = S "GET" ∨ c = S "get" then
      match lookupKV k store with
      | some v => (S "VALUE " ++ v ++ S "\n", store)
      | none => (S "NOT_FOUND\n", store)
    else if c = S "DEL" ∨ c = S "del" then (S "OK\n", eraseKey k store)
    else (S "ERROR unknown command\n", store)
  | [c] =>
    if c = S "KEYS" ∨ c = S "keys" then
      (if store.map Prod.fst = [] then S "KEYS (empty)\n"
       else S "KEYS " ++ joinSpace (store.map Prod.fst) ++ S "\n", store)
    else if c = S "QUIT" ∨ c = S "quit" then (S "BYE\n", store)
    else (S "ERROR unknown command\n", store)
  | _ => (S "ERROR unknown command\n", store)

/-- `execute_command` of chapters 20 and 21 on a raw line. -/
def execute_command (line : List Char) (store : Store) : List Char × Store :=
  exec_parts (splitn ' ' 3 line) store

/-- `handle_client` of chapters 20 and 21, abstracted over the I/O: the
input is the list of lines successfully read (each without its newline,
as produced by `BufRead::lines`), writes are assumed to succeed, and the
result is the list of responses written plus the final store.  An empty
line is skipped; after any line whose trim equals `QUIT` ignoring ASCII
case, the loop breaks. -/
def handle_client : List (List Char) → Store → List (List Char) × Store
  | [], store => ([], store)
  | l :: rest, store =>
    if l = [] then handle_client rest store
    else
      let p := execute_command l store
      if eqIgnoreAsciiCase (trim l) (S "QUIT") then ([p.1], p.2)
      else
        let q := handle_client rest p.2
        (p.1 :: q.1, q.2)

end Simple

namespace Mini

open Proto

/-- The chapter-25 value type: strings or lists of strings. -/
inductive Value : Type
  | str : List Char → Value
  | list : List (List Char) → Value
deriving DecidableEq

/-- The chapter-25 store contents: `HashMap<String, Value>` (the `RwLock`
is sequentialized away — each command runs under the lock it takes). -/
abbrev Store := List (List Char × Value)

/-- The `for key in &parts[1..]` loop of the chapter-25 `DEL` branch:
removes each key in turn, counting the removals that found a key. -/
def delFold : List (List Char) → Store → Store × Nat
  | [], store => (store, 0)
  | k :: ks, store =>
    match lookupKV k store with
    | some _ =>
      let p := delFold ks (eraseKey k store)
      (p.1, p.2 + 1)
    | none => delFold ks store

/-- The `"SET"` arm of the chapter-25 `execute_command`:
`parts[2..].join(" ")` is the stored value. -/
def setCmd (k : List Char) (vs : List (List Char)) (store : Store) :
    List Char × Store :=
  (S "+OK\n", insertKV k (Value.str (joinSpace vs)) store)

/-- The `"GET"` arm of the chapter-25 `execute_command`. -/
def getCmd (k : List Char) (store : Store) : List Char × Store :=
  match lookupKV k store with
  | some (Value.str v) => ('$' :: v ++ S "\n", store)
  | some (Value.list _) => (S "-WRONGTYPE\n", store)
  | none => (S "$-1\n", store)

/-- The `"DEL"` arm of the chapter-25 `execute_command`. -/
def delCmd (ks : List (List Char)) (store : Store) : List Char × Store :=
  let p := delFold ks store
  (':' :: natChars p.2 ++ S "\n", p.1)

/-- The `"LPUSH"` arm of the chapter-25 `execute_command`.  It mirrors
`entry(key).or_insert_with(|| Value::List(Vec::new()))` followed by
`vec.insert(0, v)` for each value in reverse order, written as one lookup:
an existing list — or, for an absent key, the freshly inserted empty
one — receives the values; a string value is left untouched. -/
def lpushCmd (k : List Char) (vs : List (List Char)) (store : Store) :
    List Char × Store :=
  match lookupKV k store with
  | some (Value.str _) => (S "-WRONGTYPE\n", store)
  | some (Value.list l) =>
    let l' := vs.reverse.foldl (fun acc v => v :: acc) l
    (':' :: natChars l'.length ++ S "\n", insertKV k (Value.list l') store)
  | none =>
    let l' := vs.reverse.foldl (fun acc v => v :: acc) []
    (':' :: natChars l'.length ++ S "\n", insertKV k (Value.list l') store)

/-- The chapter-25 `LRANGE` start-index resolution
`if start < 0 { (len + start).max(0) } else { start.min(len) } as usize`. -/
def lrangeStart (len start : Int) : Nat :=
  intToUsize (if start < 0 then max (len + start) 0 else min start len)

/-- The chapter-25 `LRANGE` stop-index resolution
`if stop < 0 { (len + stop).max(0) } else { stop.min(len - 1) } as usize`. -/
def lrangeStop (len stop : Int) : Nat :=
  intToUsize (if stop < 0 then max (len + stop) 0 else min stop (len - 1))

/-- The `"LRANGE"` arm of the chapter-25 `execute_command`.  `a`/`b` are
the raw index operands (`parse().unwrap_or(0)` resp. `unwrap_or(-1)`);
`none` models the slice-index panic of `&vec[start..=stop]`. -/
def lrangeCmd (k a b : List Char) (store : Store) :
    Option (List Char × Store) :=
  let start : Int := (parseI64 a).getD 0
  let stop : Int := (parseI64 b).getD (-1)
  match lookupKV k store with
  | some (Value.list vec) =>
    let len : Int := vec.length
    let startN : Nat := lrangeStart len start
    let stopN : Nat := lrangeStop len stop
    if startN > stopN then some (S "*0\n", store)
    else
      match sliceIncl vec startN stopN with
      | none => none
      | some items =>
        let items := items.map (fun s => '$' :: s)
        some ('*' :: natChars items.length ++ S "\n" ++ joinNl items ++ S "\n",
              store)
  | some (Value.str _) => some (S "-WRONGTYPE\n", store)
  | none => some (S "*0\n", store)

/-- The `match parts[0].to_uppercase().as_str()` of the chapter-25
`execute_command`, with its `parts.len()` guards; `c` is the uppercased
verb.  A guard failure falls through to the `_` arm exactly as in the
Rust `match`. -/
def exec_verb (c : List Char) (args : List (List Char)) (store : Store) :
    Option (List Char × Store) :=
  if c = S "SET" then
    match args with
    | k :: v0 :: vrest => some (setCmd k (v0 :: vrest) store)
    | _ => some (S "-ERROR unknown command\n", store)
  else if c = S "GET" then
    match args with
    | [k] => some (getCmd k store)
    | _ => some (S "-ERROR unknown command\n", store)
  else if c = S "DEL" then
    match args with
    | [] => some (S "-ERROR unknown command\n", store)
    | _ :: _ => some (delCmd args store)
  else if c = S "LPUSH" then
    match args with
    | k :: v0 :: vrest => some (lpushCmd k (v0 :: vrest) store)
    | _ => some (S "-ERROR unknown command\n", store)
  else if c = S "LRANGE" then
    match args with
    | [k, a, b] => lrangeCmd k a b store
    | _ => some (S "-ERROR unknown command\n", store)
  else if c = S "PING" then some (S "+PONG\n", store)
  else if c = S "QUIT" then some (S "+OK\n", store)
  else some (S "-ERROR unknown command\n", store)

/-- `execute_command` of chapter 25, split at `parts`.  `none` models a
panic (only the `LRANGE` slice can panic). -/
def exec_parts (parts : List (List Char)) (store : Store) :
    Option (List Char × Store) :=
  match parts with
  | [] => some (S "ERROR empty command\n", store)
  | cmd :: args => exec_verb (cmd.map Char.toUpper) args store

/-- `execute_command` of chapter 25 on a raw (already trimmed) line. -/
def execute_command (line : List Char) (store : Store) :
    Option (List Char × Store) :=
  exec_parts (splitWhitespace line) store

/-- `handle_client` of chapter 25, abstracted over the I/O: the input is
the list of lines successfully read, writes are assumed to succeed.  Every
line is trimmed and dispatched; the loop never breaks before end-of-input
(there is no `QUIT` check in this handler).  `none` propagates a panic. -/
def handle_client : List (List Char) → Store → Option (List (List Char) × Store)
  | [], store => some ([], store)
  | l :: rest, store =>
    match execute_command (trim l) store with
    | none => none
    | some (r, store') =>
      match handle_client rest store' with
      | none => none
      | some (rs, store'') => some (r :: rs, store'')

/-- Well-formedness of a single stored value: a list value is non-empty.
(String values are unconstrained.) -/
def valueOk : Value → Bool
  | Value.str _ => true
  | Value.list l => !l.isEmpty

/-- The store invariant: every `Value::List` in the map is non-empty. -/
def listsNonempty (store : Store) : Bool :=
  store.all fun kv => valueOk kv.2

/-- The stores reachable from the empty store by executing command lines
(the only way the servers mutate the store). -/
inductive Reach : Store → Prop
  | init : Reach []
  | step (s : Store) (line r : List Char) (s' : Store) :
      Reach s → execute_command line s = some (r, s') → Reach s'

end Mini

namespace Pool

/-- A worker of the chapter-21 `ThreadPool`: an identity (the thread handle
carries no further observable state). -/
structure Worker where
  id : Nat
deriving DecidableEq

/-- The chapter-21 `ThreadPool` record (the channel sender is not
observable at this level). -/
structure ThreadPool where
  workers : List Worker
deriving DecidableEq

/-- `ThreadPool::new(size)`: `none` models the `assert!(size > 0)` panic;
otherwise one `Worker` per element of `0..size`. -/
def threadPoolNew (size : Nat) : Option ThreadPool :=
  if size > 0 then some ⟨(List.range size).map Worker.mk⟩ else none

/-- A queued job, by identity, together with whether executing it panics. -/
structure JobSpec where
  id : Nat
  panics : Bool
deriving DecidableEq

/-- What a worker observably did with a dequeued job. -/
inductive JobOutcome : Type
  | completed : Nat → JobOutcome
  | panicked : Nat → JobOutcome
deriving DecidableEq

/-- The loop body of `Worker::new`: dequeue a job and run `job()` until
`recv()` reports a closed channel.  The input list is the sequence of jobs
this worker dequeues, ending with channel closure.  `job()` is called with
no `catch_unwind`, so (modelling Rust unwinding) a panicking job unwinds
out of the `loop`, terminating the worker thread: the returned flag is
`true` exactly when the worker exited its loop normally via the `Err`
branch. -/
def workerRun : List JobSpec → List JobOutcome × Bool
  | [] => ([], true)
  | j :: rest =>
    if j.panics then ([JobOutcome.panicked j.id], false)
    else
      let p := workerRun rest
      (JobOutcome.completed j.id :: p.1, p.2)

end Pool

namespace Proto

theorem isToken_ne {t : List Char} (h : isToken t = true) : t ≠ [] := by
  intro he
  subst he
  simp [isToken] at h

theorem isToken_nonws {t : List Char} (h : isToken t = true) :
    ∀ c ∈ t, isWs c = false := by
  intro c hc
  simp only [isToken, Bool.and_eq_true, List.all_eq_true] at h
  simpa using h.2 c hc

theorem isToken_no_space {t : List Char} (h : isToken t = true) :
    ∀ c ∈ t, c ≠ ' ' := by
  intro c hc he
  have := isToken_nonws h c hc
  subst he
  simp [isWs] at this

theorem lookupKV_erase_self {α : Type} (k : List Char)
    (s : List (List Char × α)) : lookupKV k (eraseKey k s) = none := by
  induction s with
  | nil => rfl
  | cons e rest ih =>
    by_cases h : e.1 = k
    · simpa [eraseKey, h] using ih
    · simpa [eraseKey, lookupKV, h] using ih

theorem lookupKV_erase_ne {α : Type} {k k' : List Char}
    (s : List (List Char × α)) (h : k' ≠ k) :
    lookupKV k' (eraseKey k s) = lookupKV k' s := by
  induction s with
  | nil => rfl
  | cons e rest ih =>
    by_cases he : e.1 = k
    · have hnk : e.1 ≠ k' := by
        rw [he]
        exact fun hc => h hc.symm
      rw [show eraseKey k (e :: rest) = eraseKey k rest by simp [eraseKey, he]]
      rw [ih]
      simp [lookupKV, hnk]
    · rw [show eraseKey k (e :: rest) = e :: eraseKey k rest by
        simp [eraseKey, he]]
      by_cases he' : e.1 = k'
      · simp [lookupKV, he']
      · simp [lookupKV, he', ih]

theorem lookupKV_insert_self {α : Type} (k : List Char) (v : α)
    (s : List (List Char × α)) : lookupKV k (insertKV k v s) = some v := by
  simp [insertKV, lookupKV]

theorem lookupKV_insert_ne {α : Type} {k k' : List Char} (v : α)
    (s : List (List Char × α)) (h : k' ≠ k) :
    lookupKV k' (insertKV k v s) = lookupKV k' s := by
  have : k ≠ k' := fun hc => h hc.symm
  simp [insertKV, lookupKV, this, lookupKV_erase_ne s h]

theorem lookupKV_eq_none_of_erase {α : Type} {k k' : List Char}
    (s : List (List Char × α)) :
    lookupKV k s = none → lookupKV k (eraseKey k' s) = none := by
  induction s with
  | nil => exact fun _ => rfl
  | cons e rest ih =>
    intro h
    have hek : e.1 ≠ k := by
      intro hc
      simp [lookupKV, hc] at h
    have h' : lookupKV k rest = none := by
      simpa [lookupKV, hek] using h
    by_cases he' : e.1 = k'
    · rw [show eraseKey k' (e :: rest) = eraseKey k' rest by simp [eraseKey, he']]
      exact ih h'
    · rw [show eraseKey k' (e :: rest) = e :: eraseKey k' rest by
        simp [eraseKey, he']]
      simpa [lookupKV, hek] using ih h'

theorem breakAtSep_of_not_mem {sep : Char} {s : List Char}
    (h : ∀ c ∈ s, c ≠ sep) : breakAtSep sep s = none := by
  induction s with
  | nil => rfl
  | cons c cs ih =>
    have hc : c ≠ sep := h c (by simp)
    simp only [breakAtSep, if_neg hc]
    rw [ih (fun c' hc' => h c' (by simp [hc']))]

theorem breakAtSep_append {sep : Char} {pre : List Char} (rest : List Char)
    (h : ∀ c ∈ pre, c ≠ sep) :
    breakAtSep sep (pre ++ sep :: rest) = some (pre, rest) := by
  induction pre with
  | nil => simp [breakAtSep]
  | cons c cs ih =>
    have hc : c ≠ sep := h c (by simp)
    have ih' := ih fun c' hc' => h c' (by simp [hc'])
    simp [breakAtSep, hc, ih']

theorem splitn3_three {cmd k : List Char} (v : List Char)
    (hcmd : ∀ c ∈ cmd, c ≠ ' ') (hk : ∀ c ∈ k, c ≠ ' ') :
    splitn ' ' 3 (cmd ++ ' ' :: (k ++ ' ' :: v)) = [cmd, k, v] := by
  simp only [splitn, breakAtSep_append _ hcmd, breakAtSep_append _ hk]

theorem splitn3_two {cmd k : List Char}
    (hcmd : ∀ c ∈ cmd, c ≠ ' ') (hk : ∀ c ∈ k, c ≠ ' ') :
    splitn ' ' 3 (cmd ++ ' ' :: k) = [cmd, k] := by
  simp only [splitn, breakAtSep_append _ hcmd, breakAtSep_of_not_mem hk]

theorem swAux_append_nonws {tok : List Char} (acc rest : List Char)
    (h : ∀ c ∈ tok, isWs c = false) :
    swAux acc (tok ++ rest) = swAux (tok.reverse ++ acc) rest := by
  induction tok generalizing acc with
  | nil => simp
  | cons c cs ih =>
    have hc : isWs c = false := h c (by simp)
    have ih' := ih (c :: acc) fun c' hc' => h c' (by simp [hc'])
    simp [swAux, hc, ih']

theorem splitWhitespace_cons_token {tok : List Char} (rest : List Char)
    (h : isToken tok = true) :
    splitWhitespace (tok ++ ' ' :: rest) = tok :: splitWhitespace rest := by
  unfold splitWhitespace
  rw [swAux_append_nonws [] (' ' :: rest) (isToken_nonws h)]
  have hne : tok ≠ [] := isToken_ne h
  have hws : isWs ' ' = true := by decide
  simp [swAux, hws, hne]

theorem splitWhitespace_token {tok : List Char} (h : isToken tok = true) :
    splitWhitespace tok = [tok] := by
  unfold splitWhitespace
  have hrw := swAux_append_nonws [] [] (isToken_nonws h)
  rw [List.append_nil] at hrw
  rw [hrw]
  have hne : tok ≠ [] := isToken_ne h
  simp [swAux, hne]

theorem splitWhitespace_joinSpace {vs : List (List Char)}
    (h : ∀ t ∈ vs, isToken t = true) (hne : vs ≠ []) :
    splitWhitespace (joinSpace vs) = vs := by
  induction vs with
  | nil => exact absurd rfl hne
  | cons v rest ih =>
    match rest with
    | [] => exact splitWhitespace_token (h v (by simp))
    | w :: ws =>
      rw [joinSpace, splitWhitespace_cons_token _ (h v (by simp))]
      rw [ih (fun t ht => h t (by simp [ht])) (by simp)]

theorem foldl_cons_eq {α : Type} (l b : List α) :
    l.foldl (fun acc v => v :: acc) b = l.reverse ++ b := by
  induction l generalizing b with
  | nil => rfl
  | cons x xs ih => simp [List.foldl_cons, ih]

theorem foldl_cons_reverse {α : Type} (l b : List α) :
    l.reverse.foldl (fun acc v => v :: acc) b = l ++ b := by
  rw [foldl_cons_eq]
  simp

end Proto

namespace Mini

open Proto

theorem exec_parts_nil (s : Store) :
    exec_parts [] s = some (S "ERROR empty command\n", s) := rfl

theorem exec_parts_cons (cmd : List Char) (args : List (List Char)) (s : Store) :
    exec_parts (cmd :: args) s = exec_verb (cmd.map Char.toUpper) args s := rfl

theorem exec_verb_set (k v0 : List Char) (vrest : List (List Char)) (s : Store) :
    exec_verb (S "SET") (k :: v0 :: vrest) s = some (setCmd k (v0 :: vrest) s) := rfl

theorem exec_verb_get (k : List Char) (s : Store) :
    exec_verb (S "GET") [k] s = some (getCmd k s) := rfl

theorem exec_verb_del (k0 : List Char) (ks : List (List Char)) (s : Store) :
    exec_verb (S "DEL") (k0 :: ks) s = some (delCmd (k0 :: ks) s) := rfl

theorem exec_verb_lpush (k v0 : List Char) (vrest : List (List Char)) (s : Store) :
    exec_verb (S "LPUSH") (k :: v0 :: vrest) s =
      some (lpushCmd k (v0 :: vrest) s) := rfl

theorem exec_verb_lrange (k a b : List Char) (s : Store) :
    exec_verb (S "LRANGE") [k, a, b] s = lrangeCmd k a b s := rfl

theorem exec_verb_quit (args : List (List Char)) (s : Store) :
    exec_verb (S "QUIT") args s = some (S "+OK\n", s) := rfl

theorem delFold_preserves_none {k : List Char} (ks : List (List Char))
    (s : Store) (h : lookupKV k s = none) :
    lookupKV k (delFold ks s).1 = none := by
  induction ks generalizing s with
  | nil => exact h
  | cons k0 ks ih =>
    cases hk0 : lookupKV k0 s with
    | none => simpa [delFold, hk0] using ih s h
    | some v =>
      simpa [delFold, hk0] using ih _ (lookupKV_eq_none_of_erase s h)

theorem delFold_mem_none (ks : List (List Char)) (s : Store) :
    ∀ k ∈ ks, lookupKV k (delFold ks s).1 = none := by
  induction ks generalizing s with
  | nil => intro k hk; cases hk
  | cons k0 ks ih =>
    intro k hk
    rcases List.mem_cons.mp hk with rfl | hk'
    · cases hk0 : lookupKV k s with
      | none => simpa [delFold, hk0] using delFold_preserves_none ks s hk0
      | some v =>
        simpa [delFold, hk0] using
          delFold_preserves_none ks _ (lookupKV_erase_self k s)
    · cases hk0 : lookupKV k0 s with
      | none => simpa [delFold, hk0] using ih s k hk'
      | some v => simpa [delFold, hk0] using ih _ k hk'

theorem delFold_all_absent (ks : List (List Char)) (s : Store)
    (h : ∀ k ∈ ks, lookupKV k s = none) : delFold ks s = (s, 0) := by
  induction ks with
  | nil => rfl
  | cons k0 ks ih =>
    have h0 := h k0 (by simp)
    simp [delFold, h0, ih fun k hk => h k (by simp [hk])]

theorem delFold_idem (ks : List (List Char)) (s : Store) :
    delFold ks (delFold ks s).1 = ((delFold ks s).1, 0) :=
  delFold_all_absent ks _ (delFold_mem_none ks s)

theorem delFold_count_nodup (ks : List (List Char)) (s : Store)
    (h : ks.Nodup) :
    (delFold ks s).2 =
      (ks.filter fun k => (lookupKV k s).isSome).length := by
  induction ks generalizing s with
  | nil => rfl
  | cons k0 ks ih =>
    have hnd := List.nodup_cons.mp h
    cases hk0 : lookupKV k0 s with
    | none =>
      rw [show delFold (k0 :: ks) s = delFold ks s by simp [delFold, hk0]]
      rw [ih s hnd.2]
      simp [List.filter_cons, hk0]
    | some v =>
      rw [show (delFold (k0 :: ks) s).2 = (delFold ks (eraseKey k0 s)).2 + 1 by
        simp [delFold, hk0]]
      rw [ih _ hnd.2]
      have hcong : (ks.filter fun k => (lookupKV k (eraseKey k0 s)).isSome) =
          ks.filter fun k => (lookupKV k s).isSome := by
        apply List.filter_congr
        intro k hk
        have hne : k ≠ k0 := fun he => hnd.1 (he ▸ hk)
        rw [lookupKV_erase_ne s hne]
      rw [hcong]
      simp [List.filter_cons, hk0]

theorem handle_client_length (lines : List (List Char)) (s : Store)
    (out : List (List Char) × Store) (h : handle_client lines s = some out) :
    out.1.length = lines.length := by
  induction lines generalizing s out with
  | nil =>
    simp only [handle_client, Option.some.injEq] at h
    rw [← h]
  | cons l rest ih =>
    simp only [handle_client] at h
    cases he : execute_command (trim l) s with
    | none => rw [he] at h; cases h
    | some p =>
      obtain ⟨r, s'⟩ := p
      rw [he] at h
      dsimp only at h
      cases hr : handle_client rest s' with
      | none => rw [hr] at h; cases h
      | some q =>
        obtain ⟨rs, s''⟩ := q
        rw [hr] at h
        simp only [Option.some.injEq] at h
        rw [← h]
        simpa using ih s' (rs, s'') hr

theorem getCmd_eq_str {k : List Char} {s : Store} {w : List Char}
    (h : lookupKV k s = some (Value.str w)) :
    getCmd k s = ('$' :: w ++ S "\n", s) := by
  unfold getCmd
  rw [h]

theorem getCmd_eq_list {k : List Char} {s : Store} {l : List (List Char)}
    (h : lookupKV k s = some (Value.list l)) :
    getCmd k s = (S "-WRONGTYPE\n", s) := by
  unfold getCmd
  rw [h]

theorem lpushCmd_eq_str {k : List Char} {s : Store} {w : List Char}
    (vs : List (List Char)) (h : lookupKV k s = some (Value.str w)) :
    lpushCmd k vs s = (S "-WRONGTYPE\n", s) := by
  unfold lpushCmd
  rw [h]

theorem lrangeCmd_eq_str {k : List Char} {s : Store} {w : List Char}
    (a b : List Char) (h : lookupKV k s = some (Value.str w)) :
    lrangeCmd k a b s = some (S "-WRONGTYPE\n", s) := by
  unfold lrangeCmd
  rw [h]

end Mini

namespace Simple

open Proto

theorem exec_parts_get (k : List Char) (s : Store) :
    exec_parts [S "GET", k] s =
      (match lookupKV k s with
       | some v => (S "VALUE " ++ v ++ S "\n", s)
       | none => (S "NOT_FOUND\n", s)) := rfl

end Simple

/-- A worker that dequeues only non-panicking jobs executes every one of
them in turn and exits its loop normally when the channel closes. -/
theorem workerRun_clean (js : List Pool.JobSpec)
    (h : ∀ j ∈ js, j.panics = false) :
    Pool.workerRun js =
      (js.map fun j => Pool.JobOutcome.completed j.id, true) := by
  induction js with
  | nil => rfl
  | cons j rest ih =>
    have hj : j.panics = false := h j (by simp)
    simp [Pool.workerRun, hj, ih fun j' hj' => h j' (by simp [hj'])]

namespace Proto

theorem snd_eq_of_some_eq {α β : Type} {p : α × β} {r : α} {s' : β}
    (h : some p = some (r, s')) : p.2 = s' := by
  injection h with h'
  rw [h']

theorem lookupKV_mem {α : Type} {k : List Char} {v : α} :
    ∀ {s : List (List Char × α)}, lookupKV k s = some v → (k, v) ∈ s := by
  intro s
  induction s with
  | nil => intro h; cases h
  | cons e rest ih =>
    rcases e with ⟨k', v'⟩
    intro h
    simp only [lookupKV] at h
    by_cases he : k' = k
    · rw [if_pos he] at h
      injection h with h'
      subst he
      subst h'
      exact List.mem_cons_self _ _
    · rw [if_neg he] at h
      exact List.mem_cons_of_mem _ (ih h)

theorem intToUsize_lt {e : Int} {L : Nat} (h0 : 0 ≤ e)
    (h1 : e ≤ (L : Int) - 1) : intToUsize e < L := by
  have h2 : (2 : Int) ^ 64 = 18446744073709551616 := by norm_num
  unfold intToUsize
  rw [h2]
  omega

end Proto

namespace Mini

open Proto

theorem lrangeStop_lt {L : Nat} (stop : Int) (hL : 1 ≤ L) :
    lrangeStop (L : Int) stop < L := by
  unfold lrangeStop
  by_cases hs : stop < 0
  · rw [if_pos hs]
    exact intToUsize_lt (le_max_right _ _) (max_le (by omega) (by omega))
  · rw [if_neg hs]
    exact intToUsize_lt (le_min (by omega) (by omega)) (min_le_right _ _)

theorem listsNonempty_lookup {s : Store} {k : List Char} {v : Value}
    (hs : listsNonempty s = true) (h : lookupKV k s = some v) :
    valueOk v = true := by
  have hmem := lookupKV_mem h
  simp only [listsNonempty, List.all_eq_true] at hs
  exact hs (k, v) hmem

theorem listsNonempty_erase (k : List Char) {s : Store}
    (hs : listsNonempty s = true) : listsNonempty (eraseKey k s) = true := by
  simp only [listsNonempty, List.all_eq_true] at hs ⊢
  intro kv hkv
  exact hs kv (List.mem_of_mem_filter hkv)

theorem listsNonempty_insert {k : List Char} {v : Value} {s : Store}
    (hv : valueOk v = true) (hs : listsNonempty s = true) :
    listsNonempty (insertKV k v s) = true := by
  simp only [listsNonempty, List.all_eq_true, insertKV] at hs ⊢
  intro kv hkv
  rcases List.mem_cons.mp hkv with rfl | hkv'
  · exact hv
  · exact hs kv (List.mem_of_mem_filter hkv')

theorem listsNonempty_delFold (ks : List (List Char)) {s : Store}
    (hs : listsNonempty s = true) :
    listsNonempty (delFold ks s).1 = true := by
  induction ks generalizing s with
  | nil => exact hs
  | cons k0 ks ih =>
    cases hk0 : lookupKV k0 s with
    | none => simpa [delFold, hk0] using ih hs
    | some v => simpa [delFold, hk0] using ih (listsNonempty_erase k0 hs)

theorem getCmd_store (k : List Char) (s : Store) : (getCmd k s).2 = s := by
  unfold getCmd
  cases hl : lookupKV k s with
  | none => rfl
  | some v => cases v <;> rfl

theorem listsNonempty_lpushCmd (k v0 : List Char) (vrest : List (List Char))
    {s : Store} (hs : listsNonempty s = true) :
    listsNonempty (lpushCmd k (v0 :: vrest) s).2 = true := by
  unfold lpushCmd
  cases hl : lookupKV k s with
  | none =>
    dsimp only
    apply listsNonempty_insert _ hs
    rw [foldl_cons_reverse]
    simp [valueOk]
  | some v =>
    cases v with
    | str w => exact hs
    | list l =>
      dsimp only
      apply listsNonempty_insert _ hs
      rw [foldl_cons_reverse]
      simp [valueOk]

theorem lrangeCmd_store {k a b : List Char} {s : Store} {r : List Char}
    {s' : Store} (h : lrangeCmd k a b s = some (r, s')) : s' = s := by
  unfold lrangeCmd at h
  cases hl : lookupKV k s with
  | none =>
    rw [hl] at h
    dsimp only at h
    exact (snd_eq_of_some_eq h).symm
  | some v =>
    cases v with
    | str w =>
      rw [hl] at h
      dsimp only at h
      exact (snd_eq_of_some_eq h).symm
    | list vec =>
      rw [hl] at h
      dsimp only at h
      split at h
      · exact (snd_eq_of_some_eq h).symm
      · split at h
        · exact Option.noConfusion h
        · exact (snd_eq_of_some_eq h).symm

theorem lrangeCmd_isSome (k a b : List Char) {s : Store}
    (hs : listsNonempty s = true) : (lrangeCmd k a b s).isSome = true := by
  unfold lrangeCmd
  cases hl : lookupKV k s with
  | none => rfl
  | some v =>
    cases v with
    | str w => rfl
    | list vec =>
      have hvl : 1 ≤ vec.length := by
        have hv := listsNonempty_lookup hs hl
        cases vec with
        | nil => simp [valueOk] at hv
        | cons x xs => simp
      dsimp only
      split
      · rfl
      · rename_i hgt
        have hb := lrangeStop_lt ((parseI64 b).getD (-1)) hvl
        have hslice : sliceIncl vec
            (lrangeStart (vec.length : Int) ((parseI64 a).getD 0))
            (lrangeStop (vec.length : Int) ((parseI64 b).getD (-1))) =
            some ((vec.drop
              (lrangeStart (vec.length : Int) ((parseI64 a).getD 0))).take
              (lrangeStop (vec.length : Int) ((parseI64 b).getD (-1)) + 1 -
                lrangeStart (vec.length : Int) ((parseI64 a).getD 0))) := by
          unfold sliceIncl
          rw [if_pos ⟨by omega, hb⟩]
        rw [hslice]
        rfl

theorem exec_verb_preserves (c : List Char) (args : List (List Char))
    {s : Store} {r : List Char} {s' : Store} (hs : listsNonempty s = true)
    (h : exec_verb c args s = some (r, s')) : listsNonempty s' = true := by
  unfold exec_verb at h
  by_cases h1 : c = S "SET"
  · rw [if_pos h1] at h
    match args, h with
    | [], h => rw [← snd_eq_of_some_eq h]; exact hs
    | [_], h => rw [← snd_eq_of_some_eq h]; exact hs
    | k :: v0 :: vrest, h =>
      rw [← snd_eq_of_some_eq h]
      exact listsNonempty_insert rfl hs
  rw [if_neg h1] at h
  by_cases h2 : c = S "GET"
  · rw [if_pos h2] at h
    match args, h with
    | [], h => rw [← snd_eq_of_some_eq h]; exact hs
    | [k], h =>
      rw [← snd_eq_of_some_eq h, getCmd_store]
      exact hs
    | _ :: _ :: _, h => rw [← snd_eq_of_some_eq h]; exact hs
  rw [if_neg h2] at h
  by_cases h3 : c = S "DEL"
  · rw [if_pos h3] at h
    match args, h with
    | [], h => rw [← snd_eq_of_some_eq h]; exact hs
    | k0 :: ks, h =>
      rw [← snd_eq_of_some_eq h]
      exact listsNonempty_delFold (k0 :: ks) hs
  rw [if_neg h3] at h
  by_cases h4 : c = S "LPUSH"
  · rw [if_pos h4] at h
    match args, h with
    | [], h => rw [← snd_eq_of_some_eq h]; exact hs
    | [_], h => rw [← snd_eq_of_some_eq h]; exact hs
    | k :: v0 :: vrest, h =>
      rw [← snd_eq_of_some_eq h]
      exact listsNonempty_lpushCmd k v0 vrest hs
  rw [if_neg h4] at h
  by_cases h5 : c = S "LRANGE"
  · rw [if_pos h5] at h
    match args, h with
    | [], h => rw [← snd_eq_of_some_eq h]; exact hs
    | [_], h => rw [← snd_eq_of_some_eq h]; exact hs
    | [_, _], h => rw [← snd_eq_of_some_eq h]; exact hs
    | [k, a, b], h => rw [lrangeCmd_store h]; exact hs
    | _ :: _ :: _ :: _ :: _, h => rw [← snd_eq_of_some_eq h]; exact hs
  rw [if_neg h5] at h
  by_cases h6 : c = S "PING"
  · rw [if_pos h6] at h
    rw [← snd_eq_of_some_eq h]
    exact hs
  rw [if_neg h6] at h
  by_cases h7 : c = S "QUIT"
  · rw [if_pos h7] at h
    rw [← snd_eq_of_some_eq h]
    exact hs
  rw [if_neg h7] at h
  rw [← snd_eq_of_some_eq h]
  exact hs

theorem exec_verb_total (c : List Char) (args : List (List Char)) {s : Store}
    (hs : listsNonempty s = true) : (exec_verb c args s).isSome = true := by
  unfold exec_verb
  by_cases h1 : c = S "SET"
  · rw [if_pos h1]
    match args with
    | [] => rfl
    | [_] => rfl
    | k :: v0 :: vrest => rfl
  rw [if_neg h1]
  by_cases h2 : c = S "GET"
  · rw [if_pos h2]
    match args with
    | [] => rfl
    | [k] => rfl
    | _ :: _ :: _ => rfl
  rw [if_neg h2]
  by_cases h3 : c = S "DEL"
  · rw [if_pos h3]
    match args with
    | [] => rfl
    | k0 :: ks => rfl
  rw [if_neg h3]
  by_cases h4 : c = S "LPUSH"
  · rw [if_pos h4]
    match args with
    | [] => rfl
    | [_] => rfl
    | k :: v0 :: vrest => rfl
  rw [if_neg h4]
  by_cases h5 : c = S "LRANGE"
  · rw [if_pos h5]
    match args with
    | [] => rfl
    | [_] => rfl
    | [_, _] => rfl
    | [k, a, b] => exact lrangeCmd_isSome k a b hs
    | _ :: _ :: _ :: _ :: _ => rfl
  rw [if_neg h5]
  by_cases h6 : c = S "PING"
  · rw [if_pos h6]; rfl
  rw [if_neg h6]
  by_cases h7 : c = S "QUIT"
  · rw [if_pos h7]; rfl
  rw [if_neg h7]
  rfl

theorem exec_parts_preserves (parts : List (List Char)) {s : Store}
    {r : List Char} {s' : Store} (hs : listsNonempty s = true)
    (h : exec_parts parts s = some (r, s')) : listsNonempty s' = true := by
  cases parts with
  | nil =>
    rw [exec_parts_nil] at h
    rw [← snd_eq_of_some_eq h]
    exact hs
  | cons cmd args =>
    rw [exec_parts_cons] at h
    exact exec_verb_preserves _ _ hs h

theorem exec_parts_total (parts : List (List Char)) {s : Store}
    (hs : listsNonempty s = true) : (exec_parts parts s).isSome = true := by
  cases parts with
  | nil => rfl
  | cons cmd args =>
    rw [exec_parts_cons]
    exact exec_verb_total _ _ hs

end Mini

/-- C10: every store reachable from the empty store by executing command
lines keeps all `Value::List` entries non-empty (LPUSH always inserts at
least one element, SET replaces with a string, DEL removes whole keys), and
therefore executing any further line never hits the `LRANGE` slice panic:
`stop.min(len - 1)` stays below the length and `vec[start..=stop]` is in
bounds whenever it is evaluated. -/
theorem c10_list_invariant (s : Mini.Store) (h : Mini.Reach s)
    (line : List Char) :
    Mini.listsNonempty s = true ∧
    (Mini.execute_command line s).isSome = true := by
  have hinv : Mini.listsNonempty s = true := by
    induction h with
    | init => rfl
    | step s0 l0 r0 s0' hr he ih => exact Mini.exec_parts_preserves _ ih he
  exact ⟨hinv, Mini.exec_parts_total _ hinv⟩

/-- Witness for C10 at the empty store (reachable by `Reach.init`) and an
`LRANGE` line on a missing key. -/
theorem c10_list_invariant_witness :
    Mini.listsNonempty [] = true ∧
    (Mini.execute_command (Proto.S "LRANGE missing 0 -1") []).isSome = true :=
  c10_list_invariant [] Mini.Reach.init (Proto.S "LRANGE missing 0 -1")

/-- C9: constructing the thread pool with worker count 0 fails fast — the
`assert!(size > 0)` fires (modelled as `none`) — and for every `n ≥ 1`
construction succeeds and creates exactly `n` workers. -/
theorem c9_pool_construction (n : Nat) (h : 1 ≤ n) :
    Pool.threadPoolNew 0 = none ∧
    ∃ p : Pool.ThreadPool, Pool.threadPoolNew n = some p ∧
      p.workers.length = n := by
  refine ⟨rfl, ⟨⟨(List.range n).map Pool.Worker.mk⟩, ?_, by simp⟩⟩
  rw [Pool.threadPoolNew, if_pos (show n > 0 from h)]

/-- Witness for C9 at `n = 4` (the default pool size). -/
theorem c9_pool_construction_witness :
    Pool.threadPoolNew 0 = none ∧
    ∃ p : Pool.ThreadPool, Pool.threadPoolNew 4 = some p ∧
      p.workers.length = 4 :=
  c9_pool_construction 4 (by decide)

/-- C8 counterexample: a queue holding a panicking job 0 followed by a
normal job 1 — the worker never executes job 1 and does not exit its loop
normally, so the panic is not contained to the job. -/
theorem c8_cex :
    Pool.workerRun [⟨0, true⟩, ⟨1, false⟩] =
      ([Pool.JobOutcome.panicked 0], false) ∧
    Pool.JobOutcome.completed 1 ∉ [Pool.JobOutcome.panicked 0] := by decide

/-- C8 (amended): `Worker::new` runs `job()` with no `catch_unwind`, so a
worker completes the jobs it dequeues only up to the first panicking one;
the panic unwinds out of the worker loop and that worker thread terminates
instead of resuming.  A worker whose dequeued jobs all succeed completes
every one of them and exits normally on channel closure. -/
theorem c8_worker_panic_kills_worker (pre rest : List Pool.JobSpec) (i : Nat)
    (h : ∀ j ∈ pre, j.panics = false) :
    Pool.workerRun (pre ++ ⟨i, true⟩ :: rest) =
      ((pre.map fun j => Pool.JobOutcome.completed j.id) ++
        [Pool.JobOutcome.panicked i], false) ∧
    Pool.workerRun pre =
      (pre.map fun j => Pool.JobOutcome.completed j.id, true) := by
  refine ⟨?_, workerRun_clean pre h⟩
  induction pre with
  | nil => rfl
  | cons j ps ih =>
    have hj : j.panics = false := h j (by simp)
    have ih' := ih fun j' hj' => h j' (by simp [hj'])
    simp [Pool.workerRun, hj, ih']

/-- Witness for C8 (amended): one clean job, then a panicking one, then
another queued job. -/
theorem c8_worker_panic_kills_worker_witness :
    Pool.workerRun [⟨0, false⟩, ⟨1, true⟩, ⟨2, false⟩] =
      ([Pool.JobOutcome.completed 0, Pool.JobOutcome.panicked 1], false) ∧
    Pool.workerRun [⟨0, false⟩] = ([Pool.JobOutcome.completed 0], true) :=
  c8_worker_panic_kills_worker [⟨0, false⟩] [⟨2, false⟩] 1 (by decide)

/-- C2 counterexample: the simple variants do not recognize the mixed-case
verb `Set`; the same line with `SET` is accepted. -/
theorem c2_cex :
    Simple.execute_command (Proto.S "Set k v") [] =
      (Proto.S "ERROR unknown command\n", []) ∧
    Simple.execute_command (Proto.S "SET k v") [] =
      (Proto.S "OK\n", [(Proto.S "k", Proto.S "v")]) ∧
    (Proto.S "ERROR unknown command\n", ([] : Simple.Store)) ≠
      (Proto.S "OK\n", [(Proto.S "k", Proto.S "v")]) := by decide

/-- C2 (amended): in the extended variant the parsed command depends on the
verb only through its uppercasing, so every casing of a verb is accepted
alike; in the simple variants exactly the all-uppercase and all-lowercase
spellings of each verb are recognized (and behave identically). -/
theorem c2_verb_case (cmd1 cmd2 k v : List Char) (args : List (List Char))
    (s25 : Mini.Store) (s20 : Simple.Store)
    (h : cmd1.map Char.toUpper = cmd2.map Char.toUpper) :
    Mini.exec_parts (cmd1 :: args) s25 = Mini.exec_parts (cmd2 :: args) s25 ∧
    Simple.exec_parts [Proto.S "set", k, v] s20 =
      Simple.exec_parts [Proto.S "SET", k, v] s20 ∧
    Simple.exec_parts [Proto.S "get", k] s20 =
      Simple.exec_parts [Proto.S "GET", k] s20 ∧
    Simple.exec_parts [Proto.S "del", k] s20 =
      Simple.exec_parts [Proto.S "DEL", k] s20 ∧
    Simple.exec_parts [Proto.S "keys"] s20 =
      Simple.exec_parts [Proto.S "KEYS"] s20 ∧
    Simple.exec_parts [Proto.S "quit"] s20 =
      Simple.exec_parts [Proto.S "QUIT"] s20 := by
  refine ⟨?_, rfl, rfl, rfl, rfl, rfl⟩
  rw [Mini.exec_parts_cons, Mini.exec_parts_cons, h]

/-- Witness for C2 at the mixed-case verb `GeT` (extended variant). -/
theorem c2_verb_case_witness :
    Mini.exec_parts [Proto.S "GeT", Proto.S "k"] [] =
      Mini.exec_parts [Proto.S "get", Proto.S "k"] [] :=
  (c2_verb_case (Proto.S "GeT") (Proto.S "get") (Proto.S "k") (Proto.S "v")
    [Proto.S "k"] [] [] (by decide)).1

/-- C5 counterexample: an empty line does produce response bytes — the
extended variant answers `ERROR empty command`, and a whitespace-only line
in the simple variants is answered `ERROR unknown command`. -/
theorem c5_cex :
    Mini.handle_client [[]] [] =
      some ([Proto.S "ERROR empty command\n"], []) ∧
    Simple.handle_client [[' ']] [] =
      ([Proto.S "ERROR unknown command\n"], []) ∧
    [Proto.S "ERROR empty command\n"] ≠ ([] : List (List Char)) := by decide

/-- C5 (amended): the simple variants skip an exactly-empty line with no
response and continue, but do not trim before tokenizing — a lone-space
line is dispatched and answered `ERROR unknown command`; the extended
variant trims and then answers every line, replying `ERROR empty command`
to a line that trims to empty, and continues in all cases. -/
theorem c5_empty_line (rest : List (List Char)) (s20 : Simple.Store)
    (s25 : Mini.Store) :
    Simple.handle_client ([] :: rest) s20 = Simple.handle_client rest s20 ∧
    Simple.execute_command [' '] s20 =
      (Proto.S "ERROR unknown command\n", s20) ∧
    Mini.handle_client ([] :: rest) s25 =
      (Mini.handle_client rest s25).map
        (fun q => (Proto.S "ERROR empty command\n" :: q.1, q.2)) := by
  refine ⟨?_, rfl, ?_⟩
  · rw [Simple.handle_client, if_pos rfl]
  · simp only [Mini.handle_client]
    rw [show Mini.execute_command (Proto.trim []) s25 =
      some (Proto.S "ERROR empty command\n", s25) from rfl]
    dsimp only
    cases hq : Mini.handle_client rest s25 with
    | none => rfl
    | some q =>
      obtain ⟨rs, s''⟩ := q
      rfl

/-- C4 counterexample: in the extended variant the session is not closed by
QUIT — the following `GET x` line is still read and dispatched (it receives
the `$-1` reply), so the response list has two entries, not one. -/
theorem c4_cex :
    Mini.handle_client [Proto.S "QUIT", Proto.S "GET x"] [] =
      some ([Proto.S "+OK\n", Proto.S "$-1\n"], []) ∧
    ([Proto.S "+OK\n", Proto.S "$-1\n"] : List (List Char)).length ≠ 1 := by
  decide

/-- C4 (amended): in the simple variants a QUIT line answers `BYE` and ends
the session — no later line is read or dispatched, whatever follows; in the
extended variant QUIT merely answers `+OK` and the handler keeps serving
every remaining line (exactly one response per input line until end of
input). -/
theorem c4_quit_behavior (rest : List (List Char)) (s20 : Simple.Store)
    (lines : List (List Char)) (s25 : Mini.Store)
    (out : List (List Char) × Mini.Store)
    (h : Mini.handle_client lines s25 = some out) :
    Simple.handle_client (Proto.S "QUIT" :: rest) s20 =
      ([Proto.S "BYE\n"], s20) ∧
    out.1.length = lines.length :=
  ⟨rfl, Mini.handle_client_length lines s25 out h⟩

/-- Witness for C4 (amended): QUIT followed by a further line, in both
variants. -/
theorem c4_quit_behavior_witness :
    Simple.handle_client [Proto.S "QUIT", Proto.S "GET x"] [] =
      ([Proto.S "BYE\n"], []) ∧
    ([Proto.S "+OK\n", Proto.S "$-1\n"] : List (List Char)).length =
      [Proto.S "QUIT", Proto.S "GET x"].length :=
  c4_quit_behavior [Proto.S "GET x"] [] [Proto.S "QUIT", Proto.S "GET x"] []
    ([Proto.S "+OK\n", Proto.S "$-1\n"], []) (by decide)

/-- C3 counterexample: the simple variants reject `DEL a b` as an unknown
command, and a single-key DEL answers a bare `OK` that carries no count of
removed keys. -/
theorem c3_cex :
    Simple.execute_command (Proto.S "DEL a b")
        [(Proto.S "a", Proto.S "1"), (Proto.S "b", Proto.S "2")] =
      (Proto.S "ERROR unknown command\n",
        [(Proto.S "a", Proto.S "1"), (Proto.S "b", Proto.S "2")]) ∧
    Simple.execute_command (Proto.S "DEL a") [(Proto.S "a", Proto.S "1")] =
      (Proto.S "OK\n", []) ∧
    Simple.execute_command (Proto.S "DEL a") [] = (Proto.S "OK\n", []) := by
  decide

/-- C3 (amended): the extended variant accepts `DEL key [key...]`, removes
every listed key, and replies `:n` with `n` the number actually removed —
`0` when none of the keys is present, and a second identical DEL removes
nothing and counts zero; for distinct keys the count is exactly the number
of listed keys present.  The simple variants accept exactly one key,
always answer `OK` with no count, and reject a multi-key DEL line. -/
theorem c3_del_semantics (keys : List (List Char)) (s : Mini.Store)
    (s20 : Simple.Store) (k v : List Char) (hne : keys ≠ []) :
    Mini.exec_parts (Proto.S "DEL" :: keys) s =
      some (':' :: Proto.natChars (Mini.delFold keys s).2 ++ Proto.S "\n",
        (Mini.delFold keys s).1) ∧
    (∀ k' ∈ keys, Proto.lookupKV k' (Mini.delFold keys s).1 = none) ∧
    Mini.delFold keys (Mini.delFold keys s).1 =
      ((Mini.delFold keys s).1, 0) ∧
    ((∀ k' ∈ keys, Proto.lookupKV k' s = none) →
      Mini.delFold keys s = (s, 0)) ∧
    (keys.Nodup → (Mini.delFold keys s).2 =
      (keys.filter fun k' => (Proto.lookupKV k' s).isSome).length) ∧
    Simple.exec_parts [Proto.S "DEL", k] s20 =
      (Proto.S "OK\n", Proto.eraseKey k s20) ∧
    Simple.exec_parts [Proto.S "DEL", k, v] s20 =
      (Proto.S "ERROR unknown command\n", s20) := by
  refine ⟨?_, Mini.delFold_mem_none keys s, Mini.delFold_idem keys s,
    Mini.delFold_all_absent keys s, Mini.delFold_count_nodup keys s,
    rfl, rfl⟩
  obtain ⟨k0, ks, rfl⟩ := List.exists_cons_of_ne_nil hne
  rw [Mini.exec_parts_cons,
    show (Proto.S "DEL").map Char.toUpper = Proto.S "DEL" from by decide,
    Mini.exec_verb_del]
  rfl

/-- Witness for C3 at `DEL a x` over a store holding only `a`: one key is
removed, the reply is `:1`, and the store ends empty. -/
theorem c3_del_semantics_witness :
    Mini.exec_parts [Proto.S "DEL", Proto.S "a", Proto.S "x"]
        [(Proto.S "a", Mini.Value.str (Proto.S "1"))] =
      some (Proto.S ":1\n", []) := by
  have h := (c3_del_semantics [Proto.S "a", Proto.S "x"]
    [(Proto.S "a", Mini.Value.str (Proto.S "1"))] [] (Proto.S "k")
    (Proto.S "v") (by decide)).1
  rw [h]
  rfl

/-- C1 counterexample: in the extended variant the value `a  b` (double
space) round-trips to its single-spaced normalization `a b`, not to
itself — `split_whitespace` plus `join(" ")` loses the duplicate space. -/
theorem c1_cex :
    Mini.execute_command (Proto.S "SET k a  b") [] =
      some (Proto.S "+OK\n", [(Proto.S "k", Mini.Value.str (Proto.S "a b"))]) ∧
    Mini.execute_command (Proto.S "GET k")
        [(Proto.S "k", Mini.Value.str (Proto.S "a b"))] =
      some (Proto.S "$a b\n",
        [(Proto.S "k", Mini.Value.str (Proto.S "a b"))]) ∧
    Proto.S "$a b\n" ≠ Proto.S "$a  b\n" := by decide

/-- C1 (amended): `SET k v` followed by `GET k` round-trips exactly in the
simple variants (the value is the raw remainder of the line, spaces and
all); in the extended variant the stored and returned value is the
single-space join of the whitespace tokens of `v` — equal to `v` exactly
when `v` is already whitespace-normalized. -/
theorem c1_set_get_roundtrip (k v : List Char) (s20 : Simple.Store)
    (s25 : Mini.Store) (hk : Proto.isToken k = true)
    (hv : Proto.splitWhitespace v ≠ []) :
    Simple.execute_command (Proto.S "SET" ++ ' ' :: (k ++ ' ' :: v)) s20 =
      (Proto.S "OK\n", Proto.insertKV k v s20) ∧
    Simple.execute_command (Proto.S "GET" ++ ' ' :: k)
        (Proto.insertKV k v s20) =
      (Proto.S "VALUE " ++ v ++ Proto.S "\n", Proto.insertKV k v s20) ∧
    Mini.execute_command (Proto.S "SET" ++ ' ' :: (k ++ ' ' :: v)) s25 =
      some (Proto.S "+OK\n", Proto.insertKV k
        (Mini.Value.str (Proto.joinSpace (Proto.splitWhitespace v))) s25) ∧
    Mini.execute_command (Proto.S "GET" ++ ' ' :: k)
        (Proto.insertKV k
          (Mini.Value.str (Proto.joinSpace (Proto.splitWhitespace v))) s25) =
      some ('$' :: Proto.joinSpace (Proto.splitWhitespace v) ++ Proto.S "\n",
        Proto.insertKV k
          (Mini.Value.str (Proto.joinSpace (Proto.splitWhitespace v))) s25) := by
  have hks : ∀ c ∈ k, c ≠ ' ' := Proto.isToken_no_space hk
  have hset : Proto.splitn ' ' 3 (Proto.S "SET" ++ ' ' :: (k ++ ' ' :: v)) =
      [Proto.S "SET", k, v] :=
    Proto.splitn3_three v (by decide) hks
  have hget : Proto.splitn ' ' 3 (Proto.S "GET" ++ ' ' :: k) =
      [Proto.S "GET", k] :=
    Proto.splitn3_two (by decide) hks
  refine ⟨?_, ?_, ?_, ?_⟩
  · rw [Simple.execute_command, hset]
    rfl
  · rw [Simple.execute_command, hget, Simple.exec_parts_get,
      Proto.lookupKV_insert_self]
  · have hsw : Proto.splitWhitespace (Proto.S "SET" ++ ' ' :: (k ++ ' ' :: v)) =
        Proto.S "SET" :: k :: Proto.splitWhitespace v := by
      rw [Proto.splitWhitespace_cons_token _ (by decide),
        Proto.splitWhitespace_cons_token _ hk]
    rw [Mini.execute_command, hsw]
    obtain ⟨v0, vrest, hv'⟩ := List.exists_cons_of_ne_nil hv
    rw [hv', Mini.exec_parts_cons,
      show (Proto.S "SET").map Char.toUpper = Proto.S "SET" from by decide,
      Mini.exec_verb_set]
    rfl
  · have hsw2 : Proto.splitWhitespace (Proto.S "GET" ++ ' ' :: k) =
        [Proto.S "GET", k] := by
      rw [Proto.splitWhitespace_cons_token _ (by decide),
        Proto.splitWhitespace_token hk]
    rw [Mini.execute_command, hsw2, Mini.exec_parts_cons,
      show (Proto.S "GET").map Char.toUpper = Proto.S "GET" from by decide,
      Mini.exec_verb_get,
      Mini.getCmd_eq_str (Proto.lookupKV_insert_self _ _ _)]

/-- Witness for C1 (amended) at `SET name Alice` / `GET name`. -/
theorem c1_set_get_roundtrip_witness :
    Simple.execute_command (Proto.S "SET name Alice") [] =
      (Proto.S "OK\n", [(Proto.S "name", Proto.S "Alice")]) ∧
    Mini.execute_command (Proto.S "GET name")
        [(Proto.S "name", Mini.Value.str (Proto.S "Alice"))] =
      some (Proto.S "$Alice\n",
        [(Proto.S "name", Mini.Value.str (Proto.S "Alice"))]) := by
  have h := c1_set_get_roundtrip (Proto.S "name") (Proto.S "Alice") [] []
    (by decide) (by decide)
  exact ⟨h.1, h.2.2.2⟩

/-- C6: in the extended variant, `LPUSH k a b c` on a fresh key stores the
list `[a, b, c]` (the reversed-insert-at-front loop preserves left-to-right
order) and replies `:3`, and `LRANGE k 0 -1` resolves the `-1` stop index
to the last element and returns all three elements in that order. -/
theorem c6_lpush_lrange (k a b c : List Char) (s : Mini.Store)
    (hk : Proto.isToken k = true) (ha : Proto.isToken a = true)
    (hb : Proto.isToken b = true) (hc : Proto.isToken c = true)
    (hfresh : Proto.lookupKV k s = none) :
    Mini.execute_command
        (Proto.S "LPUSH" ++ ' ' :: (k ++ ' ' :: (a ++ ' ' :: (b ++ ' ' :: c)))) s =
      some (Proto.S ":3\n", Proto.insertKV k (Mini.Value.list [a, b, c]) s) ∧
    Mini.execute_command (Proto.S "LRANGE" ++ ' ' :: (k ++ ' ' :: Proto.S "0 -1"))
        (Proto.insertKV k (Mini.Value.list [a, b, c]) s) =
      some (Proto.S "*3\n" ++ '$' :: a ++ '\n' :: '$' :: b ++ '\n' :: '$' :: c
          ++ Proto.S "\n",
        Proto.insertKV k (Mini.Value.list [a, b, c]) s) := by
  constructor
  · have hsw : Proto.splitWhitespace
        (Proto.S "LPUSH" ++ ' ' :: (k ++ ' ' :: (a ++ ' ' :: (b ++ ' ' :: c)))) =
        [Proto.S "LPUSH", k, a, b, c] := by
      rw [Proto.splitWhitespace_cons_token _ (by decide),
        Proto.splitWhitespace_cons_token _ hk,
        Proto.splitWhitespace_cons_token _ ha,
        Proto.splitWhitespace_cons_token _ hb,
        Proto.splitWhitespace_token hc]
    rw [Mini.execute_command, hsw, Mini.exec_parts_cons,
      show (Proto.S "LPUSH").map Char.toUpper = Proto.S "LPUSH" from by decide,
      Mini.exec_verb_lpush]
    unfold Mini.lpushCmd
    rw [hfresh,
      show (Proto.S ":3\n" : List Char) =
        ':' :: Proto.natChars 3 ++ Proto.S "\n" from rfl]
    rfl
  · have hsw2 : Proto.splitWhitespace
        (Proto.S "LRANGE" ++ ' ' :: (k ++ ' ' :: Proto.S "0 -1")) =
        [Proto.S "LRANGE", k, Proto.S "0", Proto.S "-1"] := by
      rw [Proto.splitWhitespace_cons_token _ (by decide),
        Proto.splitWhitespace_cons_token _ hk,
        show Proto.splitWhitespace (Proto.S "0 -1") =
          [Proto.S "0", Proto.S "-1"] from by decide]
    rw [Mini.execute_command, hsw2, Mini.exec_parts_cons,
      show (Proto.S "LRANGE").map Char.toUpper = Proto.S "LRANGE" from by decide,
      Mini.exec_verb_lrange]
    have hresp : ('*' :: Proto.natChars 3 ++ Proto.S "\n" ++
        Proto.joinNl ['$' :: a, '$' :: b, '$' :: c] ++ Proto.S "\n" : List Char) =
        Proto.S "*3\n" ++ '$' :: a ++ '\n' :: '$' :: b ++ '\n' :: '$' :: c
          ++ Proto.S "\n" := by
      rw [show Proto.natChars 3 = ['3'] from rfl,
        show (Proto.S "\n" : List Char) = ['\n'] from rfl,
        show (Proto.S "*3\n" : List Char) = '*' :: '3' :: ['\n'] from rfl]
      simp [Proto.joinNl, List.append_assoc]
    rw [← hresp]
    unfold Mini.lrangeCmd
    rw [Proto.lookupKV_insert_self]
    rfl

/-- Witness for C6 at `LPUSH mylist a b c` / `LRANGE mylist 0 -1` on the
empty store. -/
theorem c6_lpush_lrange_witness :
    Mini.execute_command (Proto.S "LPUSH mylist a b c") [] =
      some (Proto.S ":3\n",
        [(Proto.S "mylist",
          Mini.Value.list [Proto.S "a", Proto.S "b", Proto.S "c"])]) ∧
    Mini.execute_command (Proto.S "LRANGE mylist 0 -1")
        [(Proto.S "mylist",
          Mini.Value.list [Proto.S "a", Proto.S "b", Proto.S "c"])] =
      some (Proto.S "*3\n$a\n$b\n$c\n",
        [(Proto.S "mylist",
          Mini.Value.list [Proto.S "a", Proto.S "b", Proto.S "c"])]) := by
  have h := c6_lpush_lrange (Proto.S "mylist") (Proto.S "a") (Proto.S "b")
    (Proto.S "c") [] (by decide) (by decide) (by decide) (by decide) rfl
  exact ⟨h.1, h.2⟩

/-- C7: in the extended variant, `LPUSH` and `LRANGE` on a key holding a
string value, and `GET` on a key holding a list value, answer `-WRONGTYPE`
and return the store unchanged. -/
theorem c7_wrongtype (s : Mini.Store) (k w : List Char)
    (l : List (List Char)) (v0 : List Char) (vrest : List (List Char))
    (i j : List Char) :
    (Proto.lookupKV k s = some (Mini.Value.str w) →
      Mini.exec_parts (Proto.S "LPUSH" :: k :: v0 :: vrest) s =
        some (Proto.S "-WRONGTYPE\n", s) ∧
      Mini.exec_parts [Proto.S "LRANGE", k, i, j] s =
        some (Proto.S "-WRONGTYPE\n", s)) ∧
    (Proto.lookupKV k s = some (Mini.Value.list l) →
      Mini.exec_parts [Proto.S "GET", k] s =
        some (Proto.S "-WRONGTYPE\n", s)) := by
  constructor
  · intro h
    constructor
    · rw [Mini.exec_parts_cons,
        show (Proto.S "LPUSH").map Char.toUpper = Proto.S "LPUSH" from by
          decide,
        Mini.exec_verb_lpush, Mini.lpushCmd_eq_str _ h]
    · rw [Mini.exec_parts_cons,
        show (Proto.S "LRANGE").map Char.toUpper = Proto.S "LRANGE" from by
          decide,
        Mini.exec_verb_lrange, Mini.lrangeCmd_eq_str _ _ h]
  · intro h
    rw [Mini.exec_parts_cons,
      show (Proto.S "GET").map Char.toUpper = Proto.S "GET" from by decide,
      Mini.exec_verb_get, Mini.getCmd_eq_list h]

/-- Witness for C7 on a store holding string `k` and list `m`. -/
theorem c7_wrongtype_witness :
    Mini.exec_parts [Proto.S "LPUSH", Proto.S "k", Proto.S "x"]
        [(Proto.S "k", Mini.Value.str (Proto.S "v")),
         (Proto.S "m", Mini.Value.list [Proto.S "x"])] =
      some (Proto.S "-WRONGTYPE\n",
        [(Proto.S "k", Mini.Value.str (Proto.S "v")),
         (Proto.S "m", Mini.Value.list [Proto.S "x"])]) ∧
    Mini.exec_parts [Proto.S "LRANGE", Proto.S "k", Proto.S "0", Proto.S "-1"]
        [(Proto.S "k", Mini.Value.str (Proto.S "v")),
         (Proto.S "m", Mini.Value.list [Proto.S "x"])] =
      some (Proto.S "-WRONGTYPE\n",
        [(Proto.S "k", Mini.Value.str (Proto.S "v")),
         (Proto.S "m", Mini.Value.list [Proto.S "x"])]) ∧
    Mini.exec_parts [Proto.S "GET", Proto.S "m"]
        [(Proto.S "k", Mini.Value.str (Proto.S "v")),
         (Proto.S "m", Mini.Value.list [Proto.S "x"])] =
      some (Proto.S "-WRONGTYPE\n",
        [(Proto.S "k", Mini.Value.str (Proto.S "v")),
         (Proto.S "m", Mini.Value.list [Proto.S "x"])]) := by
  have h1 := c7_wrongtype
    [(Proto.S "k", Mini.Value.str (Proto.S "v")),
     (Proto.S "m", Mini.Value.list [Proto.S "x"])]
    (Proto.S "k") (Proto.S "v") [Proto.S "x"] (Proto.S "x") []
    (Proto.S "0") (Proto.S "-1")
  have h2 := c7_wrongtype
    [(Proto.S "k", Mini.Value.str (Proto.S "v")),
     (Proto.S "m", Mini.Value.list [Proto.S "x"])]
    (Proto.S "m") (Proto.S "v") [Proto.S "x"] (Proto.S "x") []
    (Proto.S "0") (Proto.S "-1")
  exact ⟨(h1.1 (by decide)).1, (h1.1 (by decide)).2, h2.2 (by decide)⟩

example : Simple.execute_command (Proto.S "SET name Alice") [] =
    (Proto.S "OK\n", [(Proto.S "name", Proto.S "Alice")]) := by decide

example :
    Simple.execute_command (Proto.S "GET name")
      [(Proto.S "name", Proto.S "Alice")] =
    (Proto.S "VALUE Alice\n", [(Proto.S "name", Proto.S "Alice")]) := by decide

example : Simple.execute_command (Proto.S "GET unknown") [] =
    (Proto.S "NOT_FOUND\n", []) := by decide

example : Simple.execute_command (Proto.S "SET msg Hello World") [] =
    (Proto.S "OK\n", [(Proto.S "msg", Proto.S "Hello World")]) := by decide

example : Simple.execute_command (Proto.S "DEL key")
      [(Proto.S "key", Proto.S "value")] = (Proto.S "OK\n", []) := by decide

example : Simple.execute_command (Proto.S "Set k v") [] =
    (Proto.S "ERROR unknown command\n", []) := by decide

example : Mini.execute_command (Proto.S "SET name Alice") [] =
    some (Proto.S "+OK\n", [(Proto.S "name", Mini.Value.str (Proto.S "Alice"))]) := by
  decide

example : Mini.execute_command (Proto.S "GET name")
      [(Proto.S "name", Mini.Value.str (Proto.S "Alice"))] =
    some (Proto.S "$Alice\n",
      [(Proto.S "name", Mini.Value.str (Proto.S "Alice"))]) := by decide

example : Mini.execute_command (Proto.S "LPUSH mylist a b c") [] =
    some (Proto.S ":3\n",
      [(Proto.S "mylist",
        Mini.Value.list [Proto.S "a", Proto.S "b", Proto.S "c"])]) := by decide

example : Mini.execute_command (Proto.S "LRANGE mylist 0 -1")
      [(Proto.S "mylist",
        Mini.Value.list [Proto.S "a", Proto.S "b", Proto.S "c"])] =
    some (Proto.S "*3\n$a\n$b\n$c\n",
      [(Proto.S "mylist",
        Mini.Value.list [Proto.S "a", Proto.S "b", Proto.S "c"])]) := by decide

example : Mini.execute_command (Proto.S "DEL a b")
      [(Proto.S "a", Mini.Value.str (Proto.S "1"))] =
    some (Proto.S ":1\n", []) := by decide

example : Mini.execute_command (Proto.S "Set k v w") [] =
    some (Proto.S "+OK\n", [(Proto.S "k", Mini.Value.str (Proto.S "v w"))]) := by
  decide

example : Mini.execute_command [] [] =
    some (Proto.S "ERROR empty command\n", []) := by decide
